import Mathlib

/-!
Verification development for the jylitalo/TwitterBot repository.

The pipeline under study lives in `twitbot.py` (class `TwitterBot`, class
`TweetFilter`, and the free functions `extend_url`, `is_http_link`,
`is_status_media`, ...) with an older generation in `twitter-bot.py`
(`clean_tweet`, `TwitterBot._get_report`).  Python strings are modelled as
`List Char` (`Str`), Python's `set` of seen texts as a duplicate-free list
grown at the front, timestamps as `Int`, and the network (the `requests`
library) as an explicit function from a URL to a response outcome.
-/

set_option maxRecDepth 8000

abbrev Str := List Char

/-- The character data of a string literal, our `List Char` view of it. -/
def str (s : String) : Str := s.data

/-- `startsWithL s pat` models Python `s.startswith(pat)`. -/
def startsWithL : Str → Str → Bool
  | _, [] => true
  | [], _ :: _ => false
  | c :: cs, p :: ps => c = p && startsWithL cs ps

/-- `endsWithL s pat` models Python `s.endswith(pat)`. -/
def endsWithL (s pat : Str) : Bool := startsWithL s.reverse pat.reverse

/-- `containsL pat s = true` iff `pat` occurs as a contiguous substring of `s`;
models Python's `pat in s` (in particular the empty pattern always occurs). -/
def containsL (pat : Str) : Str → Bool
  | [] => pat.isEmpty
  | c :: rest => startsWithL (c :: rest) pat || containsL pat rest

/-- Worker for `replaceL`: replaces non-overlapping occurrences of `pat`
left to right.  The `Nat` argument counts characters of an already matched
occurrence still to be skipped, which keeps the recursion structural. -/
def replaceGo (pat rep : Str) : Nat → Str → Str
  | _, [] => []
  | Nat.succ k, _ :: rest => replaceGo pat rep k rest
  | 0, c :: rest =>
    if startsWithL (c :: rest) pat ∧ ¬ pat = [] then
      rep ++ replaceGo pat rep (pat.length - 1) rest
    else
      c :: replaceGo pat rep 0 rest

/-- `replaceL pat rep s` models Python `s.replace(pat, rep)` for the uses in
this repository (every call with an empty `pat` also has an empty `rep`,
where Python's result is `s` as well). -/
def replaceL (pat rep s : Str) : Str :=
  if pat = [] then s else replaceGo pat rep 0 s

/-- `splitOnCharL sep s` models Python `s.split(sep)` for a one-character
separator: every single occurrence separates, so runs of separators yield
empty pieces, and the empty string yields `[[]]`. -/
def splitOnCharL (sep : Char) : Str → List Str
  | [] => [[]]
  | c :: rest =>
    if c = sep then [] :: splitOnCharL sep rest
    else
      match splitOnCharL sep rest with
      | [] => [[c]]
      | t :: ts => (c :: t) :: ts

/-- Python `' '.join(words)`. -/
def joinWords (ws : List Str) : Str := List.intercalate (str " ") ws

/-- Python `s.strip()`: drop leading and trailing whitespace. -/
def trimL (s : Str) : Str :=
  ((s.dropWhile Char.isWhitespace).reverse.dropWhile Char.isWhitespace).reverse

/-- `is_http_link` from twitbot.py: the url starts with `http://` or
`https://`. -/
def is_http_link (url : Str) : Bool :=
  startsWithL url (str "http://") || startsWithL url (str "https://")

/-- Outcome of one `requests.head(url, allow_redirects=False, ...)` call in
`extend_url`: a response whose headers may carry a `location` entry, or one
of the exceptions distinguished by the code's `except` clauses. -/
inductive HeadResult where
  | ok : Option Str → HeadResult
  | timeout : HeadResult
  | connError : HeadResult
  | otherError : HeadResult

/-- The network seen by `extend_url`: what one HEAD request to each URL does. -/
abbrev Net := Str → HeadResult

/-- An exception escaping the redirect loop, carrying the value of the `url`
variable at the moment it was raised. -/
inductive NetFailure where
  | timeout : Str → NetFailure
  | connError : Str → NetFailure
  | otherError : Str → NetFailure
deriving DecidableEq

/-- The `url` the loop had reached when the exception was raised. -/
def urlSoFar : NetFailure → Str
  | .timeout u => u
  | .connError u => u
  | .otherError u => u

/-- The `for _ in range(10)` loop of `extend_url` in twitbot.py, without the
surrounding `try`: each round issues one HEAD request; a `location` header
holding an http(s) link advances the chain, anything else breaks; an
exception aborts with the current `url`. -/
def extendLoop (net : Net) : Nat → Str → Except NetFailure Str
  | 0, url => .ok url
  | n + 1, url =>
    match net url with
    | .ok (some loc) =>
      if is_http_link loc then extendLoop net n loc else .ok url
    | .ok none => .ok url
    | .timeout => .error (.timeout url)
    | .connError => .error (.connError url)
    | .otherError => .error (.otherError url)

/-- `extend_url` from twitbot.py: run the 10-round redirect loop under the
`try`; every `except` clause returns the `url` reached so far. -/
def extend_url (net : Net) (word : Str) : Str :=
  match extendLoop net 10 word with
  | .ok url => url
  | .error f => urlSoFar f

/-- One redirect step as `extend_url` performs it: follow the `location`
header when it exists and is an http(s) link, otherwise stay put (a missing
or non-link header, and every exception, leave `url` unchanged). -/
def headAdvance (net : Net) (url : Str) : Str :=
  match net url with
  | .ok (some loc) => if is_http_link loc then loc else url
  | _ => url

lemma extendLoop_eq_iterate (net : Net) :
    ∀ (n : Nat) (url : Str),
      (match extendLoop net n url with
       | .ok u => u
       | .error f => urlSoFar f) = (headAdvance net)^[n] url := by
  intro n
  induction n with
  | zero => intro url; simp [extendLoop]
  | succ n ih =>
    intro url
    rw [Function.iterate_succ_apply]
    cases hnet : net url with
    | ok loc =>
      cases loc with
      | some l =>
        by_cases hl : is_http_link l = true
        · have hadv : headAdvance net url = l := by
            simp [headAdvance, hnet, hl]
          rw [hadv]
          rw [← ih l]
          simp [extendLoop, hnet, hl]
        · have hfix : headAdvance net url = url := by
            simp [headAdvance, hnet, hl]
          rw [hfix, Function.iterate_fixed hfix]
          simp [extendLoop, hnet, hl]
      | none =>
        have hfix : headAdvance net url = url := by simp [headAdvance, hnet]
        rw [hfix, Function.iterate_fixed hfix]
        simp [extendLoop, hnet]
    | timeout =>
      have hfix : headAdvance net url = url := by simp [headAdvance, hnet]
      rw [hfix, Function.iterate_fixed hfix]
      simp [extendLoop, hnet, urlSoFar]
    | connError =>
      have hfix : headAdvance net url = url := by simp [headAdvance, hnet]
      rw [hfix, Function.iterate_fixed hfix]
      simp [extendLoop, hnet, urlSoFar]
    | otherError =>
      have hfix : headAdvance net url = url := by simp [headAdvance, hnet]
      rw [hfix, Function.iterate_fixed hfix]
      simp [extendLoop, hnet, urlSoFar]

lemma extend_url_eq_iterate (net : Net) (url : Str) :
    extend_url net url = (headAdvance net)^[10] url := by
  rw [← extendLoop_eq_iterate net 10 url]
  simp [extend_url]

/-- A synthetic redirect chain of 12 hops: `https://u0 → https://u1 → ... →
https://u12`, and every other URL answers with no `location` header. -/
def cu (n : Nat) : Str := str "https://u" ++ (Nat.repr n).data

/-- The network realizing the 12-hop chain. -/
def chainNet (url : Str) : HeadResult :=
  match (List.range 12).find? (fun i => url == cu i) with
  | some i => .ok (some (cu (i + 1)))
  | none => .ok none

example : extend_url chainNet (cu 0) = cu 10 := by decide

/-- A tweet as the pipeline reads it: `created_at_in_seconds`, `full_text`
and `id_str` are the only attributes twitbot.py touches. -/
structure Tweet where
  created_at_in_seconds : Int
  full_text : Str
  id_str : Str

/-- The `remove` options built by `filters(topic, config)` in twitbot.py:
`remove['text']` (substring stripped from every tweet), `remove['tweets']`
(phrases whose presence discards the whole tweet) and
`remove['query_string']` (whether to cut URLs at the first `?`). -/
structure Remove where
  text : Str
  tweets : List Str
  query_string : Bool

/-- `is_status_media(tweet, word, url)` from twitbot.py: the original text
must end with the unresolved `word`, the resolved `url` must sit on
`https://twitter.com/` and end with `status/<id_str>/photo/1` or
`status/<id_str>/video/1`. -/
def is_status_media (tweet : Tweet) (word url : Str) : Bool :=
  if ¬ endsWithL tweet.full_text word = true
      ∨ ¬ startsWithL url (str "https://twitter.com/") = true then
    false
  else
    endsWithL url (str "status/" ++ tweet.id_str ++ str "/photo/1")
      || endsWithL url (str "status/" ++ tweet.id_str ++ str "/video/1")

/-- The text of a tweet after the two `replace` calls at the top of
`TweetFilter.clean_tweet`: newlines removed (replaced by the empty string),
then every occurrence of `remove['text']` removed. -/
def cleanText (remove : Remove) (tweet : Tweet) : Str :=
  replaceL remove.text [] (replaceL (str "\n") [] tweet.full_text)

/-- The value a kept link token contributes in `clean_tweet`: the resolved
URL, cut at the first `?` when `remove['query_string']` is set and the URL
has one. -/
def processed_url (net : Net) (remove : Remove) (word : Str) : Str :=
  let url := extend_url net word
  if remove.query_string && containsL (str "?") url then
    url.takeWhile (fun c => ! (c == '?'))
  else url

/-- The word loop of `TweetFilter.clean_tweet`: link tokens are resolved and
kept (setting `has_links`), except that once `has_links` is set a link judged
`is_status_media` is dropped; non-empty plain tokens are kept; empty tokens
are dropped. -/
def clean_words (net : Net) (remove : Remove) (tweet : Tweet) :
    List Str → Bool → List Str
  | [], _ => []
  | word :: rest, has_links =>
    if is_http_link word then
      if has_links && is_status_media tweet word (extend_url net word) then
        clean_words net remove tweet rest has_links
      else
        processed_url net remove word :: clean_words net remove tweet rest true
    else if ¬ word = [] then
      word :: clean_words net remove tweet rest has_links
    else
      clean_words net remove tweet rest has_links

/-- `TweetFilter.clean_tweet` from twitbot.py: empty for a tweet older than
`timespan`; empty when any `remove['tweets']` phrase occurs in the stripped
text; otherwise the space-joined surviving tokens. -/
def clean_tweet (net : Net) (remove : Remove) (timespan : Int)
    (tweet : Tweet) : Str :=
  if tweet.created_at_in_seconds < timespan then [] else
  let text := cleanText remove tweet
  if remove.tweets.any (fun spam => containsL spam text) then []
  else joinWords (clean_words net remove tweet (splitOnCharL ' ' text) false)

/-- Whether a tweet passes the two discarding filters at the top of
`clean_tweet`: the time window and the banned-phrase check. -/
def passedFilters (remove : Remove) (timespan : Int) (tweet : Tweet) : Bool :=
  ! decide (tweet.created_at_in_seconds < timespan)
    && ! remove.tweets.any (fun spam => containsL spam (cleanText remove tweet))

/-- The mutable state of a `TweetFilter`: `_uniq_text` (a set, kept here as a
duplicate-free list grown at the front) and `_duplicates`. -/
structure TweetFilterState where
  uniq_text : List Str
  duplicates : Nat
deriving DecidableEq

/-- The state of a freshly constructed `TweetFilter`. -/
def freshFilter : TweetFilterState := ⟨[], 0⟩

/-- The canonical dedup key computed inside `TweetFilter.is_unique`:
`text.strip()`, then one trailing `'.'` dropped (`text[:-1]`) if present. -/
def canonical (text : Str) : Str :=
  let t := trimL text
  if endsWithL t (str ".") then t.dropLast else t

/-- The canonicalization inlined in `TwitterBot._get_report` of the older
twitter-bot.py: `text.strip()`, then `text = text[-1]` when the stripped text
is non-empty and its last character is `'.'`. -/
def canonicalV1 (full_text : Str) : Str :=
  let text := trimL full_text
  match text.getLast? with
  | some c => if c = '.' then ['.'] else text
  | _ => text

/-- `TweetFilter.is_unique` from twitbot.py as a state transition: an empty
canonical key returns `false` and changes nothing; a seen key bumps
`_duplicates` and returns `false`; a new key is added and returns `true`. -/
def is_unique (s : TweetFilterState) (text : Str) : Bool × TweetFilterState :=
  let t := canonical text
  if t = [] then (false, s)
  else if t ∈ s.uniq_text then
    (false, { s with duplicates := s.duplicates + 1 })
  else (true, { s with uniq_text := t :: s.uniq_text })

/-- The getter `TweetFilter.uniques`: `len(self._uniq_text)`. -/
def uniques (s : TweetFilterState) : Nat := s.uniq_text.length

/-- The tweet loop of `TwitterBot._tweets`: clean each tweet, keep
`(created_at_in_seconds, text)` when `is_unique` accepts it, and close with
the `(uniques, duplicates)` summary pair. -/
def tweets_go (net : Net) (remove : Remove) (timespan : Int) :
    List Tweet → TweetFilterState → List (Int × Str) × (Nat × Nat)
  | [], s => ([], (uniques s, s.duplicates))
  | t :: ts, s =>
    let text := clean_tweet net remove timespan t
    let r := is_unique s text
    let rest := tweets_go net remove timespan ts r.2
    (if r.1 then (t.created_at_in_seconds, text) :: rest.1 else rest.1,
     rest.2)

/-- `TwitterBot._tweets`: a fresh `TweetFilter` with
`timespan = self._started - 86400` run over the fetched tweets.  The report
is the list of kept `(timestamp, text)` pairs, paired with the trailing
`(uniques, duplicates)` summary that the code appends as the last element. -/
def tweets_report (net : Net) (remove : Remove) (started : Int)
    (tweets : List Tweet) : List (Int × Str) × (Nat × Nat) :=
  tweets_go net remove (started - 86400) tweets freshFilter

/-- `self.__max_items` from `TwitterBot.__init__`. -/
def max_items : Nat := 100

/-- The truncation note of `TwitterBot._twitter_user_summary`. -/
def summaryNote (total : Nat) : Str :=
  str "Max number of tweets (" ++ (Nat.repr total).data ++ str ") fetched."

/-- The summary line of `_twitter_user_summary`, with the duplicate suffix
appended (`msg[-1] += ...`) when `skipped` is non-zero. -/
def summaryLine (found skipped : Nat) : Str :=
  let total := found + skipped
  let msg := str "Summary: " ++ (Nat.repr total).data ++ str " tweets found"
  if skipped ≠ 0 then
    msg ++ str ": " ++ (Nat.repr found).data ++ str " unique and "
      ++ (Nat.repr skipped).data ++ str " duplicates."
  else msg

/-- The `msg` list of `TwitterBot._twitter_user_summary` just before
`'\n'.join(msg)`: the truncation note exactly when
`self.__max_items == found + skipped`, then the summary line. -/
def twitter_user_summary_lines (found skipped : Nat) : List Str :=
  (if max_items = found + skipped then [summaryNote (found + skipped)] else [])
    ++ [summaryLine found skipped]

/-- `TwitterBot._twitter_user_summary` itself. -/
def twitter_user_summary (found skipped : Nat) : Str :=
  List.intercalate (str "\n") (twitter_user_summary_lines found skipped)

/-- A network where every request answers with no `location` header. -/
def net0 : Net := fun _ => .ok none

/-- An empty filter configuration: nothing stripped, no banned phrases, no
query-string stripping. -/
def remove0 : Remove := ⟨[], [], false⟩

example : clean_tweet net0 remove0 0 ⟨5, str "foo\nbar", str "1"⟩
    = str "foobar" := by decide

example : canonical (str "Hello.. world..") = str "Hello.. world." := by decide

example : canonicalV1 (str "Hello world.") = str "." := by decide

example :
    tweets_report net0 remove0 86400 [⟨0, str "a", str "1"⟩]
      = ([(0, str "a")], (1, 0)) := by decide

/-- The network seen by twitter-bot.py's `clean_tweet`: one
`requests.get(url, allow_redirects=False)` per URL, returning the optional
`location` header (that generation installs no exception handling). -/
abbrev PNet := Str → Option Str

/-- The `while url and count < 10` redirect loop of twitter-bot.py's
`clean_tweet`: stop on an absent `location` header or one not starting with
`http`, otherwise follow it; at most 10 requests. -/
def v1_resolve (net : PNet) : Nat → Str → Str
  | 0, url => url
  | n + 1, url =>
    if url = [] then url
    else
      match net url with
      | none => url
      | some loc =>
        if startsWithL loc (str "http") then v1_resolve net n loc else url

/-- The word loop of twitter-bot.py's `clean_tweet`: iterate over the words
of the already-normalized text and substitute each link by its resolved
form via `text.replace(word, url)`. -/
def v1_words_fold (net : PNet) : List Str → Str → Str
  | [], text => text
  | w :: ws, text =>
    if is_http_link w then
      v1_words_fold net ws (replaceL w (v1_resolve net 10 w) text)
    else v1_words_fold net ws text

/-- `clean_tweet(text, remove)` from twitter-bot.py: newlines become single
spaces, a truthy `remove` phrase is stripped (with double spaces collapsed
once), then links are rewritten in place. -/
def clean_tweet_v1 (net : PNet) (remove : Option Str) (text0 : Str) : Str :=
  let text1 := replaceL (str "\n") (str " ") text0
  let text2 :=
    match remove with
    | some r =>
      if r = [] then text1
      else replaceL (str "  ") (str " ") (replaceL r [] text1)
    | none => text1
  v1_words_fold net (splitOnCharL ' ' text2) text2

/-- A network for the older generation where no URL redirects. -/
def pnet0 : PNet := fun _ => none

lemma replaceGo_single_not_mem (ch : Char) (rep : Str) :
    ∀ s : Str, ch ∉ s → replaceGo [ch] rep 0 s = s := by
  intro s
  induction s with
  | nil => intro _; rfl
  | cons c rest ih =>
    intro h
    have hc : ¬ c = ch := fun hcc => h (hcc ▸ List.mem_cons_self c rest)
    have hrest : ch ∉ rest := fun hm => h (List.mem_cons_of_mem c hm)
    simp [replaceGo, startsWithL, hc, ih hrest]

lemma replaceGo_single_append (ch : Char) (rep : Str) :
    ∀ a b : Str, ch ∉ a →
      replaceGo [ch] rep 0 (a ++ ch :: b) = a ++ (rep ++ replaceGo [ch] rep 0 b) := by
  intro a
  induction a with
  | nil =>
    intro b _
    simp [replaceGo, startsWithL]
  | cons c a ih =>
    intro b h
    have hc : ¬ c = ch := fun hcc => h (hcc ▸ List.mem_cons_self c a)
    have ha : ch ∉ a := fun hm => h (List.mem_cons_of_mem c hm)
    simp [replaceGo, startsWithL, hc, ih b ha]

/-- C1 counterexample: twitbot.py's `clean_tweet` on a tweet whose text is
`"foo\nbar"` yields `"foobar"` — the newline is replaced by the empty
string, not by a space, so the two words are not separated in the output. -/
theorem clean_tweet_newline_counterexample :
    clean_tweet net0 remove0 0 ⟨5, str "foo\nbar", str "1"⟩ = str "foobar" ∧
    containsL (str " ") (clean_tweet net0 remove0 0 ⟨5, str "foo\nbar", str "1"⟩)
      = false ∧
    ¬ str "foobar" = str "foo bar" := by decide

/-- C1 (amended): twitbot.py's normalizer replaces each newline with the
empty string, so two words separated only by a newline are concatenated,
while the older twitter-bot.py normalizer replaces each newline with a
single space, keeping the words separated. -/
theorem clean_tweet_newline_amended :
    (∀ a b : Str, '\n' ∉ a → '\n' ∉ b →
      replaceL (str "\n") [] (a ++ str "\n" ++ b) = a ++ b ∧
      replaceL (str "\n") (str " ") (a ++ str "\n" ++ b) = a ++ ' ' :: b) ∧
    clean_tweet net0 remove0 0 ⟨5, str "foo\nbar", str "1"⟩ = str "foobar" ∧
    clean_tweet_v1 pnet0 none (str "foo\nbar") = str "foo bar" := by
  refine ⟨?_, by decide, by decide⟩
  intro a b ha hb
  have hnl : str "\n" = ['\n'] := rfl
  have hsp : str " " = [' '] := rfl
  rw [hnl, hsp]
  have hmid : a ++ ['\n'] ++ b = a ++ '\n' :: b := by simp
  constructor
  · rw [replaceL, if_neg (by simp), hmid,
      replaceGo_single_append '\n' [] a b ha,
      replaceGo_single_not_mem '\n' [] b hb]
    simp
  · rw [replaceL, if_neg (by simp), hmid,
      replaceGo_single_append '\n' [' '] a b ha,
      replaceGo_single_not_mem '\n' [' '] b hb]
    simp

/-- Witness for C1 (amended) at `a = "foo"`, `b = "bar"`. -/
theorem clean_tweet_newline_amended_witness :
    replaceL (str "\n") [] (str "foo" ++ str "\n" ++ str "bar")
        = str "foo" ++ str "bar" ∧
    replaceL (str "\n") (str " ") (str "foo" ++ str "\n" ++ str "bar")
        = str "foo" ++ ' ' :: str "bar" :=
  clean_tweet_newline_amended.1 (str "foo") (str "bar") (by decide) (by decide)

/-- C3: `extend_url` follows at most 10 redirect hops — its result is
exactly the 10-fold iterate of the single-hop step, whatever the redirect
chain does (including longer or cyclic chains) — and on the synthetic
12-hop chain `https://u0 → ... → https://u12` it returns the URL reached at
hop 10. -/
theorem extend_url_hop_bound :
    (∀ (net : Net) (url : Str),
      extend_url net url = (headAdvance net)^[10] url) ∧
    extend_url chainNet (cu 0) = cu 10 :=
  ⟨extend_url_eq_iterate, by decide⟩

/-- C4: for an http(s) input, `extend_url` never lets an exception escape:
its 10-round loop either finishes normally with some URL, which is
returned, or raises a network failure (timeout, connection error or any
other exception), in which case the URL reached so far in the chain is
returned instead of propagating the error. -/
theorem extend_url_no_raise (net : Net) (word : Str)
    (h : is_http_link word = true) :
    (∃ u, extendLoop net 10 word = .ok u ∧ extend_url net word = u) ∨
    (∃ f, extendLoop net 10 word = .error f ∧
      extend_url net word = urlSoFar f) := by
  cases hres : extendLoop net 10 word with
  | ok u => exact Or.inl ⟨u, rfl, by simp [extend_url, hres]⟩
  | error f => exact Or.inr ⟨f, rfl, by simp [extend_url, hres]⟩

/-- A network that redirects `https://a` to `https://b` and then fails with
a connection error on every further request. -/
def netW : Net := fun url =>
  if url = str "https://a" then .ok (some (str "https://b")) else .connError

/-- Witness for C4: on `netW` the chain advances one hop and then hits a
connection error; `extend_url` returns `https://b`, the URL reached so
far. -/
theorem extend_url_no_raise_witness :
    is_http_link (str "https://a") = true ∧
    extendLoop netW 10 (str "https://a")
        = .error (.connError (str "https://b")) ∧
    extend_url netW (str "https://a") = str "https://b" ∧
    ((∃ u, extendLoop netW 10 (str "https://a") = .ok u ∧
        extend_url netW (str "https://a") = u) ∨
      (∃ f, extendLoop netW 10 (str "https://a") = .error f ∧
        extend_url netW (str "https://a") = urlSoFar f)) :=
  ⟨by decide, by rfl, by decide,
    extend_url_no_raise netW (str "https://a") (by decide)⟩

/-- C5: twitbot.py's dedup canonicalization (`TweetFilter.is_unique`) drops
exactly one trailing dot — `"Hello world."` and `"Hello world"` share a
key, `"Hello.. world.."` keeps one trailing dot and differs, as a key, from
`"Hello.. world"` — while the older twitter-bot.py variant
(`text = text[-1]`) collapses `"Hello world."` to the key `"."`,
contradicting this. -/
theorem canonical_trailing_dot :
    canonical (str "Hello world.") = canonical (str "Hello world") ∧
    canonical (str "Hello.. world..") = str "Hello.. world." ∧
    ¬ canonical (str "Hello.. world..") = canonical (str "Hello.. world") ∧
    canonicalV1 (str "Hello world.") = str "." ∧
    ¬ canonicalV1 (str "Hello world.") = canonicalV1 (str "Hello world") := by
  decide

/-- C6: a text whose canonical key is empty is counted neither as unique
nor as duplicate: `is_unique` returns `false` and leaves the state (the
`_uniq_text` set and the `_duplicates` counter) unchanged. -/
theorem is_unique_empty_key (s : TweetFilterState) (text : Str)
    (h : canonical text = []) : is_unique s text = (false, s) := by
  simp [is_unique, h]

/-- Witness for C6 at the text `" . "`, whose canonical key is empty. -/
theorem is_unique_empty_key_witness :
    canonical (str " . ") = [] ∧
    is_unique freshFilter (str " . ") = (false, freshFilter) :=
  ⟨by decide, is_unique_empty_key freshFilter (str " . ") (by decide)⟩

lemma clean_words_first_link (net : Net) (remove : Remove) (tweet : Tweet)
    (w : Str) (post : List Str) (hw : is_http_link w = true) :
    ∀ pre : List Str, (∀ x ∈ pre, is_http_link x = false) →
      processed_url net remove w ∈
        clean_words net remove tweet (pre ++ w :: post) false := by
  intro pre
  induction pre with
  | nil =>
    intro _
    simp [clean_words, hw]
  | cons x xs ih =>
    intro hpre
    have hx : is_http_link x = false := hpre x (List.mem_cons_self x xs)
    have hxs : ∀ y ∈ xs, is_http_link y = false :=
      fun y hy => hpre y (List.mem_cons_of_mem x hy)
    by_cases hxe : x = []
    · simpa [clean_words, hxe, hx] using ih hxs
    · simpa [clean_words, hx, hxe] using Or.inr (ih hxs)

/-- C7: the first http(s) link token of a post is always kept by
`clean_tweet` — the media-suppression test is guarded by `has_links`, which
no earlier (non-link) token can have set — so its processed URL appears
among the surviving tokens, and the output is exactly the join of those
tokens. -/
theorem clean_tweet_first_link_kept (net : Net) (remove : Remove)
    (timespan : Int) (tweet : Tweet) (pre post : List Str) (w : Str)
    (h1 : ¬ tweet.created_at_in_seconds < timespan)
    (h2 : remove.tweets.any
      (fun spam => containsL spam (cleanText remove tweet)) = false)
    (h3 : splitOnCharL ' ' (cleanText remove tweet) = pre ++ w :: post)
    (h4 : ∀ x ∈ pre, is_http_link x = false)
    (h5 : is_http_link w = true) :
    processed_url net remove w ∈
      clean_words net remove tweet (pre ++ w :: post) false ∧
    clean_tweet net remove timespan tweet =
      joinWords (clean_words net remove tweet (pre ++ w :: post) false) := by
  refine ⟨clean_words_first_link net remove tweet w post h5 pre h4, ?_⟩
  rw [clean_tweet, if_neg h1]
  simp only [h2, Bool.false_eq_true, if_false, h3]

/-- A network resolving the shortened `https://t.co/x` to the post's own
photo permalink `https://twitter.com/u/status/123/photo/1`. -/
def netM : Net := fun url =>
  if url = str "https://t.co/x" then
    .ok (some (str "https://twitter.com/u/status/123/photo/1"))
  else .ok none

/-- The post used in the C7 witness: one word and one link, whose resolved
URL is the post's own media permalink. -/
def tweetM : Tweet := ⟨5, str "hi https://t.co/x", str "123"⟩

/-- Witness for C7: the single link of `tweetM` resolves to a URL that
`is_status_media` judges to be the post's own media permalink, yet being
the first link it is kept. -/
theorem clean_tweet_first_link_kept_witness :
    is_status_media tweetM (str "https://t.co/x")
        (extend_url netM (str "https://t.co/x")) = true ∧
    (processed_url netM remove0 (str "https://t.co/x") ∈
        clean_words netM remove0 tweetM
          ([str "hi"] ++ (str "https://t.co/x") :: []) false ∧
      clean_tweet netM remove0 0 tweetM =
        joinWords (clean_words netM remove0 tweetM
          ([str "hi"] ++ (str "https://t.co/x") :: []) false)) :=
  ⟨by decide,
    clean_tweet_first_link_kept netM remove0 0 tweetM [str "hi"] []
      (str "https://t.co/x") (by decide) (by decide) (by decide) (by decide)
      (by decide)⟩

lemma clean_tweet_of_old (net : Net) (remove : Remove) (timespan : Int)
    (t : Tweet) (h : t.created_at_in_seconds < timespan) :
    clean_tweet net remove timespan t = [] := by
  simp [clean_tweet, h]

lemma canonical_nil : canonical [] = [] := rfl

lemma tweets_go_mem_created (net : Net) (remove : Remove) (timespan : Int) :
    ∀ (ts : List Tweet) (s : TweetFilterState) (e : Int × Str),
      e ∈ (tweets_go net remove timespan ts s).1 → timespan ≤ e.1 := by
  intro ts
  induction ts with
  | nil => intro s e h; simp [tweets_go] at h
  | cons t ts ih =>
    intro s e h
    simp only [tweets_go] at h
    by_cases hr : (is_unique s (clean_tweet net remove timespan t)).1 = true
    · rw [if_pos hr] at h
      rcases List.mem_cons.mp h with he | he
      · subst he
        by_contra hlt
        have hlt2 : t.created_at_in_seconds < timespan := by
          simpa using lt_of_not_le hlt
        rw [clean_tweet_of_old net remove timespan t hlt2] at hr
        simp [is_unique, canonical_nil] at hr
      · exact ih _ e he
    · rw [if_neg hr] at h
      exact ih _ e h

/-- C8: every entry of a source report carries a timestamp of at least
`started - 86400` — a post older than the one-day horizon contributes no
entry to any report — while a post whose `created_at_in_seconds` equals the
cutoff exactly passes the filter and is reported. -/
theorem report_time_window :
    (∀ (net : Net) (remove : Remove) (started : Int) (tweets : List Tweet)
        (e : Int × Str), e ∈ (tweets_report net remove started tweets).1 →
        started - 86400 ≤ e.1) ∧
    tweets_report net0 remove0 86400 [⟨0, str "a", str "1"⟩]
      = ([(0, str "a")], (1, 0)) :=
  ⟨fun net remove started tweets e he =>
    tweets_go_mem_created net remove (started - 86400) tweets freshFilter e he,
   by decide⟩

/-- Witness for C8 applied to a one-element feed at the window boundary. -/
theorem report_time_window_witness :
    (86400 : Int) - 86400 ≤ (((0 : Int), str "a") : Int × Str).1 :=
  report_time_window.1 net0 remove0 86400 [⟨0, str "a", str "1"⟩]
    ((0 : Int), str "a") (by decide)

lemma is_unique_counts_step (s : TweetFilterState) (text : Str) :
    uniques (is_unique s text).2 + (is_unique s text).2.duplicates =
      uniques s + s.duplicates +
        (if canonical text = [] then 0 else 1) := by
  by_cases h0 : canonical text = []
  · simp [is_unique, h0]
  · by_cases hmem : canonical text ∈ s.uniq_text
    · simp [is_unique, h0, hmem, uniques]
      omega
    · simp [is_unique, h0, hmem, uniques]
      omega

lemma clean_tweet_of_failed (net : Net) (remove : Remove) (timespan : Int)
    (t : Tweet) (h : passedFilters remove timespan t = false) :
    clean_tweet net remove timespan t = [] := by
  by_cases hlt : t.created_at_in_seconds < timespan
  · simp [clean_tweet, hlt]
  · have hany : remove.tweets.any
        (fun spam => containsL spam (cleanText remove t)) = true := by
      simpa [passedFilters, hlt] using h
    simp [clean_tweet, hlt, hany]

lemma tweets_go_counts (net : Net) (remove : Remove) (timespan : Int) :
    ∀ (ts : List Tweet) (s : TweetFilterState),
      (tweets_go net remove timespan ts s).2.1 +
        (tweets_go net remove timespan ts s).2.2 =
      uniques s + s.duplicates +
        ts.countP (fun t =>
          ! decide (canonical (clean_tweet net remove timespan t) = [])) := by
  intro ts
  induction ts with
  | nil => intro s; simp [tweets_go]
  | cons t ts ih =>
    intro s
    have hstep := is_unique_counts_step s (clean_tweet net remove timespan t)
    have htail := ih (is_unique s (clean_tweet net remove timespan t)).2
    simp only [tweets_go] at *
    rw [List.countP_cons]
    by_cases h0 : canonical (clean_tweet net remove timespan t) = [] <;>
      simp [h0] at hstep ⊢ <;> omega

/-- C2 (amended): after one source's run, `uniques + duplicates` equals the
number of fetched posts that passed the time-window and banned-phrase
filters AND whose cleaned text has a non-empty canonical key; posts passing
the filters but canonicalizing to the empty key are counted neither way. -/
theorem report_counts_amended (net : Net) (remove : Remove) (started : Int)
    (tweets : List Tweet) :
    (tweets_report net remove started tweets).2.1 +
      (tweets_report net remove started tweets).2.2 =
    tweets.countP (fun t =>
      passedFilters remove (started - 86400) t &&
        ! decide
          (canonical (clean_tweet net remove (started - 86400) t) = [])) := by
  rw [tweets_report, tweets_go_counts]
  have hpt : ∀ t : Tweet,
      (passedFilters remove (started - 86400) t &&
        ! decide
          (canonical (clean_tweet net remove (started - 86400) t) = [])) =
      (! decide
          (canonical (clean_tweet net remove (started - 86400) t) = [])) := by
    intro t
    by_cases hp : passedFilters remove (started - 86400) t = true
    · rw [hp, Bool.true_and]
    · have hp2 : passedFilters remove (started - 86400) t = false := by
        simpa using hp
      rw [clean_tweet_of_failed net remove (started - 86400) t hp2]
      simp [canonical_nil, hp2]
  simp only [hpt]
  simp [freshFilter, uniques]

/-- C2 counterexample: a tweet whose text is `"."` passes the time-window
and banned-phrase filters, yet its canonical key is empty, so the summary
stays `(0, 0)` while one post passed the filters. -/
theorem report_counts_counterexample :
    (tweets_report net0 remove0 86405 [⟨5, str ".", str "1"⟩]).2 = (0, 0) ∧
    ([⟨5, str ".", str "1"⟩] : List Tweet).countP
      (fun t => passedFilters remove0 (86405 - 86400) t) = 1 ∧
    ¬ ((0 : Nat) + 0 = 1) := by decide

lemma summaryLine_head (found skipped : Nat) :
    (summaryLine found skipped).head? = some 'S' := by
  unfold summaryLine
  split <;> rfl

/-- C9 (amended): the rendered per-source summary contains the truncation
note exactly when `unique_count + duplicate_count` equals the maximum page
size (100); posts dropped by the time-window, banned-phrase or empty-key
checks are not counted, so a source with 100 fetched posts need not get the
note. -/
theorem summary_truncation_amended (found skipped : Nat) :
    summaryNote (found + skipped) ∈ twitter_user_summary_lines found skipped
      ↔ found + skipped = max_items := by
  unfold twitter_user_summary_lines
  constructor
  · intro h
    by_cases hc : max_items = found + skipped
    · exact hc.symm
    · rw [if_neg hc] at h
      exfalso
      have hmem : summaryNote (found + skipped) = summaryLine found skipped := by
        simpa using h
      have hM : (summaryNote (found + skipped)).head? = some 'M' := rfl
      rw [hmem, summaryLine_head] at hM
      simp at hM
  · intro h
    rw [if_pos h.symm]
    simp

/-- C9 counterexample: 100 fetched tweets — the maximum page size — of
which 99 are older than the window: the summary counts `(1, 0)` and its
rendering carries no truncation note, although the fetch count equals the
page size. -/
theorem summary_truncation_counterexample :
    (⟨5, str "a", str "1"⟩ ::
        List.replicate 99 (⟨0, str "b", str "1"⟩ : Tweet)).length
      = max_items ∧
    (tweets_report net0 remove0 86401
        (⟨5, str "a", str "1"⟩ ::
          List.replicate 99 (⟨0, str "b", str "1"⟩ : Tweet))).2 = (1, 0) ∧
    twitter_user_summary_lines 1 0 = [str "Summary: 1 tweets found"] := by
  decide

/-- A sequence of `is_unique` calls against one `TweetFilter`, returning
the final state and the list of returned booleans. -/
def runFilter : TweetFilterState → List Str → TweetFilterState × List Bool
  | s, [] => (s, [])
  | s, t :: ts =>
    let r := is_unique s t
    let rest := runFilter r.2 ts
    (rest.1, r.1 :: rest.2)

lemma uniques_is_unique (s : TweetFilterState) (t : Str) :
    uniques (is_unique s t).2 =
      uniques s + (if (is_unique s t).1 = true then 1 else 0) := by
  by_cases h0 : canonical t = []
  · simp [is_unique, h0, uniques]
  · by_cases hmem : canonical t ∈ s.uniq_text
    · simp [is_unique, h0, hmem, uniques]
    · simp [is_unique, h0, hmem, uniques]

lemma dups_is_unique (s : TweetFilterState) (t : Str) :
    (is_unique s t).2.duplicates =
      s.duplicates +
        (if ¬ canonical t = [] ∧ (is_unique s t).1 = false then 1 else 0) := by
  by_cases h0 : canonical t = []
  · simp [is_unique, h0]
  · by_cases hmem : canonical t ∈ s.uniq_text
    · simp [is_unique, h0, hmem]
    · simp [is_unique, h0, hmem]

lemma runFilter_uniques :
    ∀ (ts : List Str) (s : TweetFilterState),
      uniques (runFilter s ts).1 = uniques s + (runFilter s ts).2.count true := by
  intro ts
  induction ts with
  | nil => intro s; simp [runFilter]
  | cons t ts ih =>
    intro s
    have h := uniques_is_unique s t
    simp only [runFilter, List.count_cons, ih (is_unique s t).2, h]
    by_cases hr : (is_unique s t).1 = true <;> simp [hr] <;> omega

lemma runFilter_dups :
    ∀ (ts : List Str) (s : TweetFilterState),
      (runFilter s ts).1.duplicates =
        s.duplicates +
          (ts.zip (runFilter s ts).2).countP
            (fun p => ! decide (canonical p.1 = []) && ! p.2) := by
  intro ts
  induction ts with
  | nil => intro s; simp [runFilter]
  | cons t ts ih =>
    intro s
    have h := dups_is_unique s t
    simp only [runFilter, List.zip_cons_cons, List.countP_cons,
      ih (is_unique s t).2]
    by_cases h0 : canonical t = [] <;>
      by_cases hr : (is_unique s t).1 = true <;>
        simp [h0, hr] at h ⊢ <;> omega

lemma runFilter_append :
    ∀ (pre suf : List Str) (s : TweetFilterState),
      runFilter s (pre ++ suf) =
        ((runFilter (runFilter s pre).1 suf).1,
          (runFilter s pre).2 ++ (runFilter (runFilter s pre).1 suf).2) := by
  intro pre
  induction pre with
  | nil => intro suf s; simp [runFilter]
  | cons t pre ih =>
    intro suf s
    simp [runFilter, ih]

/-- C10: over any sequence of `is_unique` calls on a fresh `TweetFilter`,
`uniques()` equals the number of calls that returned `true`,
`_duplicates` equals the number of calls whose argument had a non-empty
canonical key and that returned `false`, and both counters are
non-decreasing as the sequence is extended. -/
theorem filter_counters_invariant (texts pre suf : List Str) :
    uniques (runFilter freshFilter texts).1
        = (runFilter freshFilter texts).2.count true ∧
    (runFilter freshFilter texts).1.duplicates
        = (texts.zip (runFilter freshFilter texts).2).countP
            (fun p => ! decide (canonical p.1 = []) && ! p.2) ∧
    uniques (runFilter freshFilter pre).1
        ≤ uniques (runFilter freshFilter (pre ++ suf)).1 ∧
    (runFilter freshFilter pre).1.duplicates
        ≤ (runFilter freshFilter (pre ++ suf)).1.duplicates := by
  refine ⟨?_, ?_, ?_, ?_⟩
  · rw [runFilter_uniques]; simp [freshFilter, uniques]
  · rw [runFilter_dups]; simp [freshFilter]
  · rw [runFilter_append, runFilter_uniques suf (runFilter freshFilter pre).1]
    exact Nat.le_add_right _ _
  · rw [runFilter_append, runFilter_dups suf (runFilter freshFilter pre).1]
    exact Nat.le_add_right _ _
